import Mathlib

/-!
Shallow embedding of the XIAO MG24 Sense capture firmware
(src/firmware/firmware.ino, with the named ADC conversion helper of the
second firmware variant).  Machine integers are modelled as Nat / Int with
explicit reductions modulo 2^w exactly where the C code can overflow or
casts; Arduino String operations (trim, startsWith, indexOf, substring,
toInt) are modelled on List Char.
-/

/-- MAX_SR, firmware.ino line 28. -/
def MAX_SR : Nat := 8000

/-- MAX_SECONDS, firmware.ino line 29. -/
def MAX_SECONDS : Nat := 10

/-- MAX_SAMPLES = MAX_SR * MAX_SECONDS, firmware.ino line 30. -/
def MAX_SAMPLES : Nat := MAX_SR * MAX_SECONDS

/-- TX_CHUNK, firmware.ino line 31: samples per Serial.write block. -/
def TX_CHUNK : Nat := 1024

/-- C isspace, as used by String::trim and atol: space, \t, \n, \v, \f, \r. -/
def isSpaceC (c : Char) : Bool :=
  if c.toNat = 32 ∨ (9 ≤ c.toNat ∧ c.toNat ≤ 13) then true else false

/-- C isdigit: characters 0..9. -/
def isDigitC (c : Char) : Bool :=
  if 48 ≤ c.toNat ∧ c.toNat ≤ 57 then true else false

/-- Arduino String::trim — strip leading and trailing isspace characters. -/
def trimChars (l : List Char) : List Char :=
  ((l.dropWhile isSpaceC).reverse.dropWhile isSpaceC).reverse

/-- Index of the first occurrence of c in l, or none (String::indexOf(c)). -/
def firstIdx (c : Char) : List Char → Option Nat
  | [] => none
  | x :: xs => if x = c then some 0 else (firstIdx c xs).map (· + 1)

/-- Arduino String::indexOf(c, start): first occurrence at index ≥ start. -/
def indexOfFrom (l : List Char) (c : Char) (start : Nat) : Option Nat :=
  (firstIdx c (l.drop start)).map (start + ·)

/-- Arduino String::substring(a, b): the characters at indices a ≤ i < b. -/
def subChars (l : List Char) (a b : Nat) : List Char :=
  (l.drop a).take (b - a)

/-- Decimal value of a list of digit characters (most significant first). -/
def digitsVal (l : List Char) : Nat :=
  l.foldl (fun acc c => acc * 10 + (c.toNat - 48)) 0

/-- C atol, called by Arduino String::toInt: skip leading isspace, optional
sign, then the longest run of decimal digits (0 when there are none). -/
def atol (l : List Char) : Int :=
  match l.dropWhile isSpaceC with
  | '-' :: r => - (digitsVal (r.takeWhile isDigitC) : Int)
  | '+' :: r => (digitsVal (r.takeWhile isDigitC) : Int)
  | r => (digitsVal (r.takeWhile isDigitC) : Int)

/-- The C cast (uint32_t) applied to a long: reduce modulo 2^32. -/
def toUInt32c (i : Int) : Nat := (i % (2 ^ 32 : Int)).toNat

/-- Arduino String::startsWith("REC"): the first three characters are R,E,C. -/
def startsWithREC : List Char → Bool
  | 'R' :: 'E' :: 'C' :: _ => true
  | _ => false

/-- The two numeric fields of a REC command line, firmware.ino lines 71-76:
require the REC prefix and two commas, take the substring between the two
commas and the substring after the second comma, convert each with
String::toInt (atol) and cast to uint32_t.  none when the prefix or a comma
is missing. -/
def recFields (l : List Char) : Option (Nat × Nat) :=
  if startsWithREC l then
    match indexOfFrom l ',' 0 with
    | none => none
    | some c1 =>
      match indexOfFrom l ',' (c1 + 1) with
      | none => none
      | some c2 =>
        some (toUInt32c (atol (subChars l (c1 + 1) c2)),
              toUInt32c (atol (l.drop (c2 + 1))))
  else none

/-- firmware.ino lines 79-105: clamp the requested count to MAX_SAMPLES,
clamp the requested rate to MAX_SR, and when the rate was clamped rescale
the count as (n * sr + sr_requested/2) / sr_requested in a uint64
intermediate (the operands stay below 2^32 here, so plain Nat arithmetic is
exact), force a zero result to 1, clamp to MAX_SAMPLES, and clamp the final
count to MAX_SAMPLES once more. -/
def clampResample (sr_requested n_requested0 : Nat) : Nat × Nat :=
  let n_requested := if n_requested0 > MAX_SAMPLES then MAX_SAMPLES else n_requested0
  let sr := if sr_requested > MAX_SR then MAX_SR else sr_requested
  let effective_n :=
    if sr_requested ≠ sr then
      let scaled := (n_requested * sr + sr_requested / 2) / sr_requested
      let scaled := if scaled = 0 then 1 else scaled
      let scaled := if scaled > MAX_SAMPLES then MAX_SAMPLES else scaled
      scaled
    else n_requested
  let effective_n := if effective_n > MAX_SAMPLES then MAX_SAMPLES else effective_n
  (sr, effective_n)

/-- parse_rec_cmd, firmware.ino lines 70-107: extract the two numeric
fields, reject when either is zero, otherwise clamp/rescale and return the
effective (sr, n). -/
def parse_rec_cmd (l : List Char) : Option (Nat × Nat) :=
  match recFields l with
  | none => none
  | some (srq, nq) =>
    if srq = 0 ∨ nq = 0 then none else some (clampResample srq nq)

/-- The (int16_t) cast: reduce an int32 value into [-32768, 32767] with
two's-complement wrap-around. -/
def wrap16 (v : Int) : Int := (v + 32768) % 65536 - 32768

/-- The (uint16_t) reinterpretation of an int16 value, used to take the
little-endian bytes of a stored sample. -/
def toU16 (v : Int) : Nat := (v % (65536 : Int)).toNat

/-- ADC calibration state of the second firmware variant: adcBits,
adcMidpoint, adcShift (globals, lines 134-136 there). -/
structure AdcCalib where
  adcBits : Nat
  adcMidpoint : Int
  adcShift : Nat
deriving DecidableEq

/-- configureAdcScaling (second firmware variant): coerce bits into 1..16,
midpoint = 2^(bits-1), shift = 16 - bits. -/
def configureAdcScaling (bits0 : Nat) : AdcCalib :=
  let bits := if bits0 < 1 then 1 else if bits0 > 16 then 16 else bits0
  { adcBits := bits, adcMidpoint := 2 ^ (bits - 1), adcShift := 16 - bits }

/-- convertAdcToInt16 (second firmware variant): center on the midpoint,
left-shift by adcShift, clamp to [INT16_MIN, INT16_MAX].  For raw codes in
the ADC range the int32 intermediate cannot overflow, so exact Int
arithmetic models it. -/
def convertAdcToInt16 (c : AdcCalib) (raw : Int) : Int :=
  let centered := raw - c.adcMidpoint
  let scaled := centered * 2 ^ c.adcShift
  if scaled > 32767 then 32767
  else if scaled < -32768 then -32768
  else scaled

/-- configure_adc_scaling, firmware.ino lines 39-56: bits outside 2..16 fall
back to 10; midpoint = 2^(bits-1); scale = 32768 / midpoint with the code's
two never-firing positivity guards.  Returns (adcMidpoint, adcScale). -/
def configure_adc_scaling (bits0 : Nat) : Int × Int :=
  let bits := if bits0 < 2 ∨ bits0 > 16 then 10 else bits0
  let midpoint : Int := 2 ^ (bits - 1)
  let divisor := if midpoint ≤ 0 then 1 else midpoint
  let scale := (32768 : Int) / divisor
  let scale := if scale ≤ 0 then 1 else scale
  (midpoint, scale)

/-- The sample stored by firmware.ino line 137:
(int16_t)(((int32_t)raw - adcMidpoint) * adcScale). -/
def fwSample (mid scale raw : Int) : Int := wrap16 ((raw - mid) * scale)

/-- Bytes here are Nat values < 256.  Text bytes of a literal string. -/
def strBytes (s : String) : List Nat := s.toList.map Char.toNat

/-- Arduino Print::println terminates lines with CR LF. -/
def EOL : List Nat := [13, 10]

/-- Serial.println(string): its bytes followed by CR LF. -/
def lineBytes (s : String) : List Nat := strBytes s ++ EOL

/-- Decimal digits of n, most significant first (fuel-based so that it
reduces inside the kernel). -/
def decDigitsAux : Nat → Nat → List Nat
  | 0, _ => []
  | fuel + 1, n => if n < 10 then [n] else decDigitsAux fuel (n / 10) ++ [n % 10]

/-- Decimal digits of n, most significant first. -/
def decDigits (n : Nat) : List Nat := decDigitsAux (n + 1) n

/-- Serial.print of an unsigned number: its decimal digit characters. -/
def decBytes (n : Nat) : List Nat := (decDigits n).map (· + 48)

/-- Little-endian int16 bytes of a list of stored samples, as Serial.write
sends them from the buffer. -/
def bytesLE16 : List Int → List Nat
  | [] => []
  | v :: r => toU16 v % 256 :: toU16 v / 256 :: bytesLE16 r

/-- The bulk-transmit loop, firmware.ino lines 144-149: send blocks of at
most TX_CHUNK samples until all are sent (fuel-based; the fuel is an upper
bound on the iteration count). -/
def txLoopAux : Nat → List Int → List Nat
  | 0, _ => []
  | fuel + 1, rest =>
    if rest = [] then []
    else bytesLE16 (rest.take TX_CHUNK) ++ txLoopAux fuel (rest.drop TX_CHUNK)

/-- The bytes produced by the bulk-transmit loop for a sample list. -/
def txChunks (samples : List Int) : List Nat := txLoopAux (samples.length + 1) samples

/-- The device buffer state: sampleBufCapacity and the buffer contents
(sampleBuf), firmware.ino lines 33-34. -/
structure BufState where
  cap : Nat
  data : List Int
deriving DecidableEq

/-- ensure_buffer, firmware.ino lines 58-68: succeed untouched when the
capacity already suffices; otherwise realloc — modelled by the allocOk
oracle — which on success preserves the prior contents and records the new
capacity, and on failure leaves everything unchanged. -/
def ensure_buffer (allocOk : Bool) (st : BufState) (n : Nat) : Bool × BufState :=
  if n ≤ st.cap then (true, st)
  else if allocOk then
    (true, ⟨n, st.data.take n ++ List.replicate (n - st.data.length) 0⟩)
  else (false, st)

/-- record_then_send, firmware.ino lines 123-151: grow the buffer (ERR,BUF
and return on failure), sample n raw ADC codes (the stream adc), store
their int16 conversions, then send the DATA,<n> header, the samples in
TX_CHUNK blocks, and DONE.  The busy-wait timing affects only when samples
are read, not the byte stream, and is not modelled. -/
def record_then_send (allocOk : Bool) (adc : Nat → Int) (mid scale : Int)
    (st : BufState) (sr n : Nat) : List Nat × BufState :=
  match ensure_buffer allocOk st n with
  | (false, stf) => (lineBytes "ERR,BUF", stf)
  | (true, st1) =>
    let samples := (List.range n).map (fun i => fwSample mid scale (adc i))
    let st2 : BufState := ⟨st1.cap, samples ++ st1.data.drop n⟩
    (strBytes "DATA," ++ decBytes n ++ EOL ++ txChunks samples ++ lineBytes "DONE", st2)

/-- One iteration of loop, firmware.ino lines 153-165, for one received
line: trim it, parse it, and either ACK + capture or ERR.  Returns the
bytes written and the new buffer state. -/
def deviceStep (allocOk : Bool) (adc : Nat → Int) (mid scale : Int)
    (st : BufState) (rawLine : List Char) : List Nat × BufState :=
  match parse_rec_cmd (trimChars rawLine) with
  | some (sr, n) =>
    let r := record_then_send allocOk adc mid scale st sr n
    (lineBytes "ACK" ++ r.1, r.2)
  | none => (lineBytes "ERR", st)

/-- The sample-rate field value a REC line parses to, 0 when the line has
no such field (used to state which lines the parser rejects). -/
def srFieldOf (l : List Char) : Nat :=
  match recFields l with
  | some p => p.1
  | none => 0

/-- The sample-count field value a REC line parses to, 0 when the line has
no such field. -/
def nFieldOf (l : List Char) : Nat :=
  match recFields l with
  | some p => p.2
  | none => 0

/-- The effective-count formula as the spec states it for a clamped rate:
clamp(round(m * MAX_SR / sr_requested), 1, MAX_SAMPLES), rounding by adding
sr_requested/2 before the integer division. -/
def specClampRound (srq m : Nat) : Nat :=
  max 1 (min MAX_SAMPLES ((m * MAX_SR + srq / 2) / srq))

/-- The effective count in the spec's stated order for a clamped rate:
clamp the requested count to MAX_SAMPLES first, rescale with rounding,
force a zero result to 1, re-clamp to MAX_SAMPLES. -/
def specOrderedN (srq nq : Nat) : Nat :=
  let n1 := if nq > MAX_SAMPLES then MAX_SAMPLES else nq
  let s := (n1 * MAX_SR + srq / 2) / srq
  let s1 := if s = 0 then 1 else s
  let s2 := if s1 > MAX_SAMPLES then MAX_SAMPLES else s1
  s2

/-- The amplitude mapping as the spec states it:
clamp((raw - 2^(bit_depth-1)) * 2^(16-bit_depth), -32768, 32767). -/
def specAmplitude (bits : Nat) (raw : Int) : Int :=
  max (-32768) (min 32767 ((raw - 2 ^ (bits - 1)) * 2 ^ (16 - bits)))

/-! ## Helper lemmas -/

theorem MAX_SR_eq : MAX_SR = 8000 := rfl

theorem MAX_SAMPLES_eq : MAX_SAMPLES = 80000 := rfl

/-- An accepted line has nonzero fields and its result is clampResample of
the fields (firmware.ino lines 75-106). -/
theorem parse_clamp (l : List Char) (srq nq sr n : Nat)
    (hf : recFields l = some (srq, nq))
    (hp : parse_rec_cmd l = some (sr, n)) :
    srq ≠ 0 ∧ nq ≠ 0 ∧ clampResample srq nq = (sr, n) := by
  simp only [parse_rec_cmd, hf] at hp
  by_cases h0 : srq = 0 ∨ nq = 0
  · simp [h0] at hp
  · push_neg at h0
    refine ⟨h0.1, h0.2, ?_⟩
    simpa [h0.1, h0.2] using hp

/-- The uint32_t cast lands below 2^32. -/
theorem toUInt32c_lt (i : Int) : toUInt32c i < 2 ^ 32 := by
  have h : (2 : Int) ^ 32 = 4294967296 := by norm_num
  simp only [toUInt32c, h]
  omega

/-- Both parsed fields are uint32 values. -/
theorem recFields_lt (l : List Char) (srq nq : Nat)
    (hf : recFields l = some (srq, nq)) : srq < 2 ^ 32 ∧ nq < 2 ^ 32 := by
  unfold recFields at hf
  split at hf
  · split at hf
    · exact absurd hf (by simp)
    · split at hf
      · exact absurd hf (by simp)
      · simp only [Option.some.injEq, Prod.mk.injEq] at hf
        exact ⟨hf.1 ▸ toUInt32c_lt _, hf.2 ▸ toUInt32c_lt _⟩
  · exact absurd hf (by simp)

/-! ## Claim theorems: parameter negotiation -/

/-- C1 counterexample: for the line REC,16000,160000 the firmware rescales
the count clamped to MAX_SAMPLES (80000), not the count as given on the
command line, so it answers 40000 while the claim's formula
clamp(round(160000 * MAX_SR / 16000), 1, MAX_SAMPLES) gives 80000. -/
theorem rate_clamp_raw_count_counterexample :
    recFields ("REC,16000,160000".toList) = some (16000, 160000)
    ∧ parse_rec_cmd ("REC,16000,160000".toList) = some (8000, 40000)
    ∧ MAX_SR < 16000
    ∧ specClampRound 16000 160000 = 80000
    ∧ (40000 : Nat) ≠ specClampRound 16000 160000 := by decide

/-- C1 (amended): for every command line accepted with requested rate above
MAX_SR, the effective rate is MAX_SR and the effective count is
clamp(round(m * MAX_SR / sr_requested), 1, MAX_SAMPLES), where m is the
requested count first clamped to MAX_SAMPLES (rounding done by adding
sr_requested/2 before the integer division). -/
theorem rate_clamp_rescale (l : List Char) (srq nq sr n : Nat)
    (hf : recFields l = some (srq, nq))
    (hp : parse_rec_cmd l = some (sr, n))
    (hgt : MAX_SR < srq) :
    sr = MAX_SR ∧ n = specClampRound srq (min nq MAX_SAMPLES) := by
  obtain ⟨h0s, h0n, hc⟩ := parse_clamp l srq nq sr n hf hp
  simp only [clampResample, MAX_SR_eq, MAX_SAMPLES_eq] at hc
  simp only [MAX_SR_eq] at hgt
  rw [if_pos hgt] at hc
  have hne : srq ≠ 8000 := by omega
  simp only [hne, ite_true, ne_eq, not_false_eq_true] at hc
  injection hc with hsr hn
  subst hsr hn
  refine ⟨rfl, ?_⟩
  simp only [specClampRound, MAX_SR_eq, MAX_SAMPLES_eq, Nat.max_def, Nat.min_def]
  by_cases hnq : nq > 80000
  · rw [if_pos hnq, if_neg (show ¬nq ≤ 80000 by omega)]
    generalize (80000 * 8000 + srq / 2) / srq = q
    split_ifs <;> omega
  · rw [if_neg hnq, if_pos (show nq ≤ 80000 by omega)]
    generalize (nq * 8000 + srq / 2) / srq = q
    split_ifs <;> omega

/-- C1 witness: REC,32000,100 is accepted with rate 8000 and count 25. -/
theorem rate_clamp_rescale_witness :
    (8000 : Nat) = MAX_SR ∧ (25 : Nat) = specClampRound 32000 (min 100 MAX_SAMPLES) :=
  rate_clamp_rescale ("REC,32000,100".toList) 32000 100 8000 25
    (by decide) (by decide) (by decide)

/-- C2: for every command line accepted with requested rate above MAX_SR,
the count is processed in the stated order — clamp to MAX_SAMPLES, rescale
as (clamped * sr + sr_requested/2) / sr_requested, force zero to 1, then
re-clamp to MAX_SAMPLES — and the wide intermediate of that rescale stays
below 2^64, and the capture is invoked with exactly that effective count. -/
theorem resample_order (l : List Char) (srq nq sr n : Nat)
    (hf : recFields l = some (srq, nq))
    (hp : parse_rec_cmd l = some (sr, n))
    (hgt : MAX_SR < srq) :
    sr = MAX_SR ∧ n = specOrderedN srq nq
    ∧ (if nq > MAX_SAMPLES then MAX_SAMPLES else nq) * MAX_SR + srq / 2 < 2 ^ 64
    ∧ ∀ (allocOk : Bool) (adc : Nat → Int) (mid scale : Int) (st : BufState)
        (rawLine : List Char), trimChars rawLine = l →
        deviceStep allocOk adc mid scale st rawLine
          = (lineBytes "ACK"
              ++ (record_then_send allocOk adc mid scale st MAX_SR (specOrderedN srq nq)).1,
             (record_then_send allocOk adc mid scale st MAX_SR (specOrderedN srq nq)).2) := by
  obtain ⟨h0s, h0n, hc⟩ := parse_clamp l srq nq sr n hf hp
  have hlt := recFields_lt l srq nq hf
  simp only [clampResample, MAX_SR_eq, MAX_SAMPLES_eq] at hc
  simp only [MAX_SR_eq] at hgt
  rw [if_pos hgt] at hc
  have hne : srq ≠ 8000 := by omega
  simp only [hne, ite_true, ne_eq, not_false_eq_true] at hc
  injection hc with hsr hn
  subst hsr hn
  have hord : (if (if (if ((if nq > 80000 then 80000 else nq) * 8000 + srq / 2) / srq = 0
        then 1 else ((if nq > 80000 then 80000 else nq) * 8000 + srq / 2) / srq) > 80000
        then 80000
        else (if ((if nq > 80000 then 80000 else nq) * 8000 + srq / 2) / srq = 0
          then 1 else ((if nq > 80000 then 80000 else nq) * 8000 + srq / 2) / srq)) > 80000
      then 80000
      else (if (if ((if nq > 80000 then 80000 else nq) * 8000 + srq / 2) / srq = 0
        then 1 else ((if nq > 80000 then 80000 else nq) * 8000 + srq / 2) / srq) > 80000
        then 80000
        else (if ((if nq > 80000 then 80000 else nq) * 8000 + srq / 2) / srq = 0
          then 1 else ((if nq > 80000 then 80000 else nq) * 8000 + srq / 2) / srq)))
      = specOrderedN srq nq := by
    simp only [specOrderedN, MAX_SR_eq, MAX_SAMPLES_eq]
    split_ifs <;> omega
  refine ⟨rfl, hord, ?_, ?_⟩
  · simp only [MAX_SR_eq, MAX_SAMPLES_eq]
    have h32 : srq < 2 ^ 32 := hlt.1
    have : (2 : Nat) ^ 32 ≤ 2 ^ 64 := by norm_num
    split_ifs <;> omega
  · intro allocOk adc mid scale st rawLine ht
    simp only [deviceStep, ht, hp, hord, MAX_SR_eq]

/-- C2 witness: REC,16000,8000 is accepted with rate MAX_SR and count
specOrderedN 16000 8000 = 4000. -/
theorem resample_order_witness :
    (8000 : Nat) = MAX_SR ∧ (4000 : Nat) = specOrderedN 16000 8000 := by
  have h := resample_order ("REC,16000,8000".toList) 16000 8000 8000 4000
    (by decide) (by decide) (by decide)
  exact ⟨h.1, h.2.1⟩

/-- C3: for every command line accepted with requested rate within the
limit, the effective rate equals the requested rate and the effective count
is min(n_requested, MAX_SAMPLES); no rescaling is applied. -/
theorem parse_within_limit (l : List Char) (srq nq sr n : Nat)
    (hf : recFields l = some (srq, nq))
    (hp : parse_rec_cmd l = some (sr, n))
    (hle : srq ≤ MAX_SR) :
    sr = srq ∧ n = min nq MAX_SAMPLES := by
  obtain ⟨h0s, h0n, hc⟩ := parse_clamp l srq nq sr n hf hp
  simp only [clampResample, MAX_SR_eq, MAX_SAMPLES_eq] at hc
  simp only [MAX_SR_eq] at hle
  rw [if_neg (show ¬srq > 8000 by omega)] at hc
  rw [if_neg (show ¬(srq ≠ srq) by simp)] at hc
  injection hc with hsr hn
  subst hsr hn
  refine ⟨rfl, ?_⟩
  simp only [MAX_SAMPLES_eq, Nat.min_def]
  split_ifs <;> omega

/-- C3 witness: REC,8000,200000 is accepted as rate 8000 and count
min(200000, MAX_SAMPLES) = 80000. -/
theorem parse_within_limit_witness :
    (8000 : Nat) = 8000 ∧ (80000 : Nat) = min 200000 MAX_SAMPLES :=
  parse_within_limit ("REC,8000,200000".toList) 8000 200000 8000 80000
    (by decide) (by decide) (by decide)

/-- C8: every accepted line yields an effective rate in (0, MAX_SR] and an
effective count in (0, MAX_SAMPLES]. -/
theorem accepted_invariant (l : List Char) (sr n : Nat)
    (hp : parse_rec_cmd l = some (sr, n)) :
    0 < sr ∧ sr ≤ MAX_SR ∧ 0 < n ∧ n ≤ MAX_SAMPLES := by
  cases hf : recFields l with
  | none => simp [parse_rec_cmd, hf] at hp
  | some p =>
    obtain ⟨srq, nq⟩ := p
    obtain ⟨h0s, h0n, hc⟩ := parse_clamp l srq nq sr n hf hp
    simp only [clampResample, MAX_SR_eq, MAX_SAMPLES_eq] at hc
    simp only [MAX_SR_eq, MAX_SAMPLES_eq]
    by_cases hgt : srq > 8000
    · rw [if_pos hgt] at hc
      rw [if_pos (show srq ≠ 8000 by omega)] at hc
      injection hc with hsr hn
      subst hsr hn
      generalize ((if nq > 80000 then 80000 else nq) * 8000 + srq / 2) / srq = q
      split_ifs <;> omega
    · rw [if_neg hgt] at hc
      rw [if_neg (show ¬(srq ≠ srq) by simp)] at hc
      injection hc with hsr hn
      subst hsr hn
      split_ifs <;> omega

/-- C8 witness: REC,8000,100 is accepted and (8000, 100) satisfies the
invariant. -/
theorem accepted_invariant_witness :
    0 < 8000 ∧ 8000 ≤ MAX_SR ∧ 0 < 100 ∧ 100 ≤ MAX_SAMPLES :=
  accepted_invariant ("REC,8000,100".toList) 8000 100 (by decide)

/-! ## Claim theorems: buffer management -/

/-- A single ensure_buffer call never decreases the recorded capacity. -/
theorem ensure_buffer_cap_mono (allocOk : Bool) (st : BufState) (n : Nat) :
    st.cap ≤ (ensure_buffer allocOk st n).2.cap := by
  unfold ensure_buffer
  split_ifs with h1 h2
  · exact le_refl _
  · exact le_of_not_le h1
  · exact le_refl _

/-- C9: the sample buffer is grow-only — one call never decreases the
capacity, a call with n within the current capacity succeeds and leaves the
state untouched (no reallocation), a successful call ends with capacity at
least n, and across any sequence of calls the capacity never decreases. -/
theorem buffer_grow_only (allocOk : Bool) (st : BufState) (n : Nat)
    (calls : List (Bool × Nat)) :
    st.cap ≤ (ensure_buffer allocOk st n).2.cap
    ∧ (n ≤ st.cap → ensure_buffer allocOk st n = (true, st))
    ∧ ((ensure_buffer allocOk st n).1 = true → n ≤ (ensure_buffer allocOk st n).2.cap)
    ∧ st.cap ≤ (calls.foldl (fun s c => (ensure_buffer c.1 s c.2).2) st).cap := by
  refine ⟨ensure_buffer_cap_mono allocOk st n, ?_, ?_, ?_⟩
  · intro h
    simp [ensure_buffer, h]
  · intro h
    unfold ensure_buffer at h ⊢
    split_ifs at h ⊢ with h1 h2
    · exact h1
    · exact le_refl n
  · induction calls generalizing st with
    | nil => exact le_refl _
    | cons c cs ih =>
      simp only [List.foldl_cons]
      exact le_trans (ensure_buffer_cap_mono c.1 st c.2) (ih _)

/-- C9 witness: with capacity 3 held, a request for 2 succeeds without
touching the state. -/
theorem buffer_grow_only_witness :
    ensure_buffer true ⟨3, [0, 0, 0]⟩ 2 = (true, ⟨3, [0, 0, 0]⟩) :=
  (buffer_grow_only true ⟨3, [0, 0, 0]⟩ 2 []).2.1 (by decide)

/-- C7: when buffer growth fails, record_then_send emits exactly the
ERR,BUF line and returns with the buffer state — capacity and contents —
unchanged, producing no DATA or DONE output and storing no sample. -/
theorem buf_fail_atomic (allocOk : Bool) (adc : Nat → Int) (mid scale : Int)
    (st : BufState) (sr n : Nat)
    (h : (ensure_buffer allocOk st n).1 = false) :
    record_then_send allocOk adc mid scale st sr n = (lineBytes "ERR,BUF", st) := by
  have hE : ensure_buffer allocOk st n = (false, st) := by
    unfold ensure_buffer at h ⊢
    split_ifs at h ⊢ <;> simp_all
  simp [record_then_send, hE]

/-- C7 witness: with an empty buffer and a failing allocator, a 1-sample
capture answers ERR,BUF and changes nothing. -/
theorem buf_fail_atomic_witness :
    record_then_send false (fun _ => 0) 512 64 ⟨0, []⟩ 8000 1
      = (lineBytes "ERR,BUF", ⟨0, []⟩) :=
  buf_fail_atomic false (fun _ => 0) 512 64 ⟨0, []⟩ 8000 1 (by decide)

/-! ## Transmit-loop flattening -/

theorem bytesLE16_append (a b : List Int) :
    bytesLE16 (a ++ b) = bytesLE16 a ++ bytesLE16 b := by
  induction a with
  | nil => rfl
  | cons v r ih => simp [bytesLE16, ih]

theorem bytesLE16_length (l : List Int) : (bytesLE16 l).length = 2 * l.length := by
  induction l with
  | nil => rfl
  | cons v r ih =>
    simp only [bytesLE16, List.length_cons, ih]
    omega

/-- With enough fuel the chunked transmit loop sends exactly the
little-endian bytes of all samples. -/
theorem txLoopAux_eq (fuel : Nat) :
    ∀ l : List Int, l.length ≤ fuel → txLoopAux fuel l = bytesLE16 l := by
  induction fuel with
  | zero =>
    intro l h
    have hl : l = [] := List.eq_nil_of_length_eq_zero (by omega)
    subst hl
    rfl
  | succ f ih =>
    intro l h
    rw [txLoopAux]
    split_ifs with hl
    · rw [hl]
      rfl
    · have h1 : (l.drop TX_CHUNK).length ≤ f := by
        have hp : 0 < l.length := List.length_pos.mpr hl
        simp only [List.length_drop, TX_CHUNK]
        omega
      rw [ih _ h1, ← bytesLE16_append, List.take_append_drop]

theorem txChunks_eq (l : List Int) : txChunks l = bytesLE16 l :=
  txLoopAux_eq (l.length + 1) l (by omega)

/-! ## Claim theorems: response framing -/

/-- C5: for every accepted request with effective count n whose buffer
growth succeeds, the device output for the request is the ACK line, the
DATA,<n> line, exactly n*2 payload bytes that are the first n buffer
samples in order as signed 16-bit little-endian values, then the DONE line;
the total response length is 18 + (number of decimal digits of n) + 2*n —
a function of n alone. -/
theorem response_frame (allocOk : Bool) (adc : Nat → Int) (mid scale : Int)
    (st : BufState) (rawLine : List Char) (sr n : Nat)
    (hp : parse_rec_cmd (trimChars rawLine) = some (sr, n))
    (hb : (ensure_buffer allocOk st n).1 = true) :
    (deviceStep allocOk adc mid scale st rawLine).1
      = lineBytes "ACK" ++ strBytes "DATA," ++ decBytes n ++ EOL
        ++ bytesLE16 ((deviceStep allocOk adc mid scale st rawLine).2.data.take n)
        ++ lineBytes "DONE"
    ∧ (bytesLE16 ((deviceStep allocOk adc mid scale st rawLine).2.data.take n)).length
        = n * 2
    ∧ (deviceStep allocOk adc mid scale st rawLine).1.length
        = 18 + (decDigits n).length + 2 * n := by
  rcases hE : ensure_buffer allocOk st n with ⟨ok, st1⟩
  rw [hE] at hb
  simp only at hb
  subst hb
  have hdev : deviceStep allocOk adc mid scale st rawLine
      = (lineBytes "ACK"
          ++ (strBytes "DATA," ++ decBytes n ++ EOL
              ++ txChunks ((List.range n).map (fun i => fwSample mid scale (adc i)))
              ++ lineBytes "DONE"),
         ⟨st1.cap,
          ((List.range n).map (fun i => fwSample mid scale (adc i)))
            ++ st1.data.drop n⟩) := by
    simp only [deviceStep, hp, record_then_send, hE]
  rw [hdev]
  have hlen : ((List.range n).map (fun i => fwSample mid scale (adc i))).length = n := by
    simp
  have htake : ((((List.range n).map (fun i => fwSample mid scale (adc i)))
      ++ st1.data.drop n).take n)
      = (List.range n).map (fun i => fwSample mid scale (adc i)) := by
    exact List.take_left' hlen
  have l1 : (lineBytes "ACK").length = 5 := by decide
  have l2 : (strBytes "DATA,").length = 5 := by decide
  have l3 : (lineBytes "DONE").length = 6 := by decide
  have l4 : EOL.length = 2 := by decide
  have l5 : (decBytes n).length = (decDigits n).length := by
    simp [decBytes]
  refine ⟨?_, ?_, ?_⟩
  · simp only [htake, txChunks_eq, List.append_assoc]
  · simp only [htake, bytesLE16_length, hlen]
    omega
  · simp only [txChunks_eq, List.length_append, l1, l2, l3, l4, l5,
      bytesLE16_length, hlen]
    omega

/-- C5 witness: REC,8000,2 with a constant ADC stream yields the full frame
with 4 payload bytes and total length 18 + 1 + 4. -/
theorem response_frame_witness :
    (deviceStep true (fun _ => 600) 512 64 ⟨0, []⟩ ("REC,8000,2".toList)).1
      = lineBytes "ACK" ++ strBytes "DATA," ++ decBytes 2 ++ EOL
        ++ bytesLE16
            ((deviceStep true (fun _ => 600) 512 64 ⟨0, []⟩ ("REC,8000,2".toList)).2.data.take 2)
        ++ lineBytes "DONE"
    ∧ (bytesLE16
        ((deviceStep true (fun _ => 600) 512 64 ⟨0, []⟩ ("REC,8000,2".toList)).2.data.take 2)).length
        = 2 * 2
    ∧ (deviceStep true (fun _ => 600) 512 64 ⟨0, []⟩ ("REC,8000,2".toList)).1.length
        = 18 + (decDigits 2).length + 2 * 2 :=
  response_frame true (fun _ => 600) 512 64 ⟨0, []⟩ ("REC,8000,2".toList) 8000 2
    (by decide) (by decide)

/-! ## Claim theorems: command rejection -/

theorem firstIdx_none_iff (c : Char) (l : List Char) :
    firstIdx c l = none ↔ l.count c = 0 := by
  induction l with
  | nil => simp [firstIdx]
  | cons x xs ih =>
    rw [firstIdx]
    by_cases hx : x = c
    · simp [hx, List.count_cons]
    · simp [hx, Ne.symm hx, List.count_cons, Option.map_eq_none', ih]

theorem firstIdx_some_count (c : Char) (l : List Char) (i : Nat)
    (h : firstIdx c l = some i) :
    l.count c = (l.drop (i + 1)).count c + 1 := by
  induction l generalizing i with
  | nil => simp [firstIdx] at h
  | cons x xs ih =>
    rw [firstIdx] at h
    by_cases hx : x = c
    · rw [if_pos hx] at h
      injection h with h0
      subst h0
      simp [hx, List.count_cons]
    · rw [if_neg hx] at h
      rcases hfi : firstIdx c xs with _ | j
      · rw [hfi] at h
        simp at h
      · rw [hfi] at h
        simp only [Option.map_some', Option.some.injEq] at h
        subst h
        have hxs := ih j hfi
        simp only [List.count_cons, hx, List.drop_succ_cons]
        simp [Ne.symm hx, hxs, hx]

/-- The firmware rejects a line exactly when the REC prefix is missing,
fewer than two commas occur, or a parsed numeric field is zero. -/
theorem parse_none_iff (l : List Char) :
    parse_rec_cmd l = none ↔
      (startsWithREC l = false ∨ l.count ',' < 2
       ∨ srFieldOf l = 0 ∨ nFieldOf l = 0) := by
  by_cases hS : startsWithREC l
  · rcases h1 : indexOfFrom l ',' 0 with _ | c1
    · have hf0 : firstIdx ',' l = none := by
        simpa [indexOfFrom, Option.map_eq_none'] using h1
      have hc : l.count ',' = 0 := (firstIdx_none_iff ',' l).mp hf0
      simp [parse_rec_cmd, recFields, hS, h1, hc]
    · have hf1 : firstIdx ',' l = some c1 := by
        have := h1
        simp only [indexOfFrom, List.drop_zero, Option.map_eq_some'] at this
        obtain ⟨j, hj, hje⟩ := this
        rw [hj]
        simp [← hje]
      have hcnt1 : l.count ',' = (l.drop (c1 + 1)).count ',' + 1 :=
        firstIdx_some_count ',' l c1 hf1
      rcases h2 : indexOfFrom l ',' (c1 + 1) with _ | c2
      · have hf2 : firstIdx ',' (l.drop (c1 + 1)) = none := by
          simpa [indexOfFrom, Option.map_eq_none'] using h2
        have hc : l.count ',' = 1 := by
          rw [hcnt1, (firstIdx_none_iff ',' _).mp hf2]
        simp [parse_rec_cmd, recFields, hS, h1, h2, hc]
      · have hf2 : ¬firstIdx ',' (l.drop (c1 + 1)) = none := by
          simp only [indexOfFrom, Option.map_eq_some'] at h2
          obtain ⟨j, hj, _⟩ := h2
          simp [hj]
        have hcnt : 2 ≤ l.count ',' := by
          have := (firstIdx_none_iff ',' (l.drop (c1 + 1))).not.mp hf2
          omega
        have hf : recFields l
            = some (toUInt32c (atol (subChars l (c1 + 1) c2)),
                    toUInt32c (atol (l.drop (c2 + 1)))) := by
          simp [recFields, hS, h1, h2]
        have hsr : srFieldOf l = toUInt32c (atol (subChars l (c1 + 1) c2)) := by
          simp [srFieldOf, hf]
        have hn : nFieldOf l = toUInt32c (atol (l.drop (c2 + 1))) := by
          simp [nFieldOf, hf]
        by_cases h0 : toUInt32c (atol (subChars l (c1 + 1) c2)) = 0
            ∨ toUInt32c (atol (l.drop (c2 + 1))) = 0
        · simp [parse_rec_cmd, hf, h0, hsr, hn]
        · push_neg at h0
          simp [parse_rec_cmd, hf, hsr, hn, hS, h0.1, h0.2,
            show ¬l.count ',' < 2 by omega]
  · simp only [Bool.not_eq_true] at hS
    simp [parse_rec_cmd, recFields, hS]

/-- C6 (amended): for every input line the firmware rejects — missing the
three-character prefix REC, fewer than two commas anywhere in the line, or
either numeric field parsing (via toInt and the uint32 cast) to zero — the
response is exactly the ERR line, the buffer state is unchanged, and no
capture and no DATA output occurs; and those are exactly the rejected
lines. -/
theorem reject_malformed (allocOk : Bool) (adc : Nat → Int) (mid scale : Int)
    (st : BufState) (rawLine : List Char) :
    (parse_rec_cmd (trimChars rawLine) = none ↔
      (startsWithREC (trimChars rawLine) = false
       ∨ (trimChars rawLine).count ',' < 2
       ∨ srFieldOf (trimChars rawLine) = 0
       ∨ nFieldOf (trimChars rawLine) = 0))
    ∧ (parse_rec_cmd (trimChars rawLine) = none →
        deviceStep allocOk adc mid scale st rawLine = (lineBytes "ERR", st)) := by
  refine ⟨parse_none_iff _, ?_⟩
  intro h
  simp [deviceStep, h]

/-- C6 witness: REC,0,100 is rejected with exactly the ERR line and an
unchanged state. -/
theorem reject_malformed_witness :
    deviceStep true (fun _ => 0) 512 64 ⟨0, []⟩ ("REC,0,100".toList)
      = (lineBytes "ERR", ⟨0, []⟩) :=
  (reject_malformed true (fun _ => 0) 512 64 ⟨0, []⟩ ("REC,0,100".toList)).2
    (by decide)

/-- C6 counterexample: REC,1,2,3 does not contain exactly two comma
separators after the prefix (it has three), so the claim calls it
malformed, yet the firmware accepts it (count field parsed from 2,3 as 2)
and answers ACK plus a capture instead of ERR. -/
theorem reject_malformed_counterexample :
    ("REC,1,2,3".toList).count ',' = 3
    ∧ parse_rec_cmd ("REC,1,2,3".toList) = some (1, 2)
    ∧ (deviceStep true (fun _ => 0) 512 64 ⟨0, []⟩ ("REC,1,2,3".toList)).1
        ≠ lineBytes "ERR" := by decide

/-! ## Claim theorems: amplitude mapping -/

/-- Int16 wrap-around is the identity on in-range values. -/
theorem wrap16_eq_of_range (v : Int) (h1 : -32768 ≤ v) (h2 : v ≤ 32767) :
    wrap16 v = v := by
  unfold wrap16
  omega

/-- For a raw code in the ADC range, the centered-and-scaled value stays
within [-32768, 32768 - 2^(16-bits)]. -/
theorem adc_core (bits : Nat) (h1 : 1 ≤ bits) (h16 : bits ≤ 16) (raw : Int)
    (hr0 : 0 ≤ raw) (hrb : raw < 2 ^ bits) :
    -32768 ≤ (raw - 2 ^ (bits - 1)) * 2 ^ (16 - bits)
    ∧ (raw - 2 ^ (bits - 1)) * 2 ^ (16 - bits) ≤ 32768 - 2 ^ (16 - bits) := by
  have hm : (2 : Int) ^ (bits - 1) * 2 ^ (16 - bits) = 32768 := by
    rw [← pow_add, show bits - 1 + (16 - bits) = 15 by omega]
    norm_num
  have h2b : (2 : Int) ^ bits = 2 ^ (bits - 1) * 2 := by
    rw [← pow_succ, show bits - 1 + 1 = bits by omega]
  have hs_pos : (0 : Int) < 2 ^ (16 - bits) := by positivity
  have hub : raw - 2 ^ (bits - 1) ≤ 2 ^ (bits - 1) - 1 := by
    rw [h2b] at hrb
    omega
  have hlb : -(2 ^ (bits - 1) : Int) ≤ raw - 2 ^ (bits - 1) := by omega
  constructor
  · have hmul := mul_le_mul_of_nonneg_right hlb (le_of_lt hs_pos)
    rw [neg_mul, hm] at hmul
    exact hmul
  · have hmul := mul_le_mul_of_nonneg_right hub (le_of_lt hs_pos)
    have hrhs : ((2 : Int) ^ (bits - 1) - 1) * 2 ^ (16 - bits)
        = 32768 - 2 ^ (16 - bits) := by
      rw [sub_mul, one_mul, hm]
    rw [hrhs] at hmul
    exact hmul

/-- C4: for every bit depth in the supported range and every raw ADC code
of that depth, the amplitude mapping equals
clamp((raw - 2^(bits-1)) * 2^(16-bits), -32768, 32767); the inline mapping
of firmware.ino (midpoint/scale from configure_adc_scaling, int16 cast)
agrees with that formula for depths 2..16, so the stored sample saturates
rather than wraps; and the mapping is monotone in the raw code. -/
theorem adc_mapping_clamp_monotone (bits : Nat) (h1 : 1 ≤ bits) (h16 : bits ≤ 16) :
    (∀ raw : Int, 0 ≤ raw → raw < 2 ^ bits →
      convertAdcToInt16 (configureAdcScaling bits) raw = specAmplitude bits raw)
    ∧ (2 ≤ bits → ∀ raw : Int, 0 ≤ raw → raw < 2 ^ bits →
      fwSample (configure_adc_scaling bits).1 (configure_adc_scaling bits).2 raw
        = specAmplitude bits raw)
    ∧ (∀ r1 r2 : Int, 0 ≤ r1 → r1 ≤ r2 → r2 < 2 ^ bits →
      convertAdcToInt16 (configureAdcScaling bits) r1
        ≤ convertAdcToInt16 (configureAdcScaling bits) r2) := by
  have hcal : configureAdcScaling bits
      = { adcBits := bits, adcMidpoint := 2 ^ (bits - 1), adcShift := 16 - bits } := by
    unfold configureAdcScaling
    rw [if_neg (show ¬bits < 1 by omega), if_neg (show ¬bits > 16 by omega)]
  have hs1 : (1 : Int) ≤ 2 ^ (16 - bits) := by
    have : (0 : Int) < 2 ^ (16 - bits) := by positivity
    omega
  refine ⟨?_, ?_, ?_⟩
  · intro raw hr0 hrb
    have hc := adc_core bits h1 h16 raw hr0 hrb
    rw [hcal]
    simp only [convertAdcToInt16, specAmplitude]
    rw [Int.max_def, Int.min_def]
    split_ifs <;> omega
  · intro h2le raw hr0 hrb
    have hc := adc_core bits h1 h16 raw hr0 hrb
    have hfac : (32768 : Int) = 2 ^ (bits - 1) * 2 ^ (16 - bits) := by
      rw [← pow_add, show bits - 1 + (16 - bits) = 15 by omega]
      norm_num
    have hdiv : (32768 : Int) / 2 ^ (bits - 1) = 2 ^ (16 - bits) := by
      rw [hfac, Int.mul_ediv_cancel_left]
      positivity
    have hcfg : configure_adc_scaling bits = (2 ^ (bits - 1), 2 ^ (16 - bits)) := by
      simp only [configure_adc_scaling]
      rw [if_neg (show ¬(bits < 2 ∨ bits > 16) by omega)]
      rw [if_neg (show ¬((2 : Int) ^ (bits - 1) ≤ 0) by
        simp only [not_le]
        positivity)]
      rw [hdiv, if_neg (show ¬((2 : Int) ^ (16 - bits) ≤ 0) by
        simp only [not_le]
        positivity)]
    rw [hcfg]
    simp only [fwSample]
    rw [wrap16_eq_of_range _ hc.1 (by omega)]
    simp only [specAmplitude]
    rw [Int.max_def, Int.min_def]
    split_ifs <;> omega
  · intro r1 r2 hr0 h12 hrb
    have hc1 := adc_core bits h1 h16 r1 hr0 (lt_of_le_of_lt h12 hrb)
    have hc2 := adc_core bits h1 h16 r2 (le_trans hr0 h12) hrb
    have hmono : (r1 - 2 ^ (bits - 1)) * 2 ^ (16 - bits)
        ≤ (r2 - 2 ^ (bits - 1)) * 2 ^ (16 - bits) :=
      mul_le_mul_of_nonneg_right (by omega) (by positivity)
    rw [hcal]
    simp only [convertAdcToInt16]
    split_ifs <;> omega

/-- C4 witness: at 12 bits, code 4095 maps to the clamp formula, the
firmware.ino inline mapping agrees at code 0, and the mapping is monotone
from code 100 to 4095. -/
theorem adc_mapping_witness :
    convertAdcToInt16 (configureAdcScaling 12) 4095 = specAmplitude 12 4095
    ∧ fwSample (configure_adc_scaling 12).1 (configure_adc_scaling 12).2 0
        = specAmplitude 12 0
    ∧ convertAdcToInt16 (configureAdcScaling 12) 100
        ≤ convertAdcToInt16 (configureAdcScaling 12) 4095 := by
  have h := adc_mapping_clamp_monotone 12 (by decide) (by decide)
  exact ⟨h.1 4095 (by decide) (by decide),
         h.2.1 (by decide) 0 (by decide) (by decide),
         h.2.2 100 4095 (by decide) (by decide) (by decide)⟩

/-! ## Claim theorems: parser leniency -/

/-- C10: the parser accepts lines outside the REC,(sr),(n) format — a
line whose first three characters are REC with more text before the first
comma, a line with trailing text after the count, and a line with a
negative rate field (cast to a large uint32 and then clamped to MAX_SR,
count rescaled), all of which trigger a capture (ACK and a DATA frame). -/
theorem parser_accepts_beyond_spec :
    parse_rec_cmd ("RECORD,8000,100".toList) = some (8000, 100)
    ∧ parse_rec_cmd ("REC,8000,100,junk".toList) = some (8000, 100)
    ∧ recFields ("REC,-1,100".toList) = some (4294967295, 100)
    ∧ parse_rec_cmd ("REC,-1,100".toList) = some (8000, 1)
    ∧ (deviceStep true (fun _ => 512) 512 64 ⟨0, []⟩ ("REC,-1,100".toList)).1
        = lineBytes "ACK" ++ strBytes "DATA," ++ decBytes 1 ++ EOL
          ++ [0, 0] ++ lineBytes "DONE" := by decide
